import Mathlib

/-!
Verification of the flashduty-runner core against its specification.

Shallow embedding of the Go sources:
  permission/permission.go  (rule table construction, pattern matching, Check)
  workspace/workspace.go    (safePath, Bash gating, LimitedWriter, grep fallback)
  workspace/large_output.go (Process, truncateContent)
  ws/client.go              (heartbeat env-info one-shot, reconnect backoff)
  ws/handler.go             (executeAndSendResult success/failure mapping)

Machine strings are Lean String; Go byte counts coincide with char counts on
the ASCII inputs used by the concrete witnesses.  External collaborators
(doublestar glob library, shell parser, ripgrep, the real filesystem and the
process runtime) are abstracted as explicit parameters of the embedded
functions, never stubbed away.
-/

namespace Runner

/-! ## String helpers mirroring the Go standard library.
All helpers work on the underlying char lists so that concrete instances
evaluate inside the kernel. -/

/-- Go strings.ToLower (ASCII-faithful). -/
def goToLower (s : String) : String := String.mk (s.data.map Char.toLower)

/-- Go strings.HasPrefix s pre. -/
def goHasPrefix (s pre : String) : Bool := pre.data.isPrefixOf s.data

/-- Go strings.HasSuffix s suf. -/
def goHasSuffix (s suf : String) : Bool := suf.data.isSuffixOf s.data

/-- Drop the final char; with goHasSuffix this models strings.TrimSuffix for
a one-char suffix. -/
def goDropLast (s : String) : String := String.mk s.data.dropLast

/-- The first n chars, modelling a Go slice s[:n] on ASCII content. -/
def goTake (s : String) (n : Nat) : String := String.mk (s.data.take n)

/-- Split a char list at every occurrence of sep (Go strings.Split with a
one-char separator). -/
def splitChAux (sep : Char) : List Char → List (List Char)
  | [] => [[]]
  | c :: rest =>
      if c == sep then [] :: splitChAux sep rest
      else
        match splitChAux sep rest with
        | [] => [[c]]
        | h :: t => (c :: h) :: t

/-- Go strings.Split s (String.singleton sep). -/
def goSplit (s : String) (sep : Char) : List String :=
  (splitChAux sep s.data).map String.mk

/-- Go strings.Join parts sep. -/
def joinWith (sep : String) : List String → String
  | [] => ""
  | [x] => x
  | x :: xs => x ++ sep ++ joinWith sep xs

/-- Go strings.TrimSpace. -/
def goTrimSpace (s : String) : String :=
  String.mk (((s.data.dropWhile Char.isWhitespace).reverse.dropWhile
    Char.isWhitespace).reverse)

/-- Byte-wise lexicographic comparison of Go sort.Strings, on char lists. -/
def lexLe : List Char → List Char → Bool
  | [], _ => true
  | _ :: _, [] => false
  | a :: as, b :: bs => if a < b then true else if b < a then false else lexLe as bs

/-- Go string comparison a <= b as used by sort.Strings. -/
def goLe (a b : String) : Bool := lexLe a.data b.data

/-- Insertion step for the model of sort.Strings. -/
def insertSorted (x : String) : List String → List String
  | [] => [x]
  | y :: ys => if goLe x y then x :: y :: ys else y :: insertSorted x ys

/-- Model of Go sort.Strings: stable insertion sort by byte-wise order. -/
def sortStrings : List String → List String
  | [] => []
  | x :: xs => insertSorted x (sortStrings xs)

/-- Go strings.Contains: sub occurs as a contiguous substring of s. -/
def goContains (s sub : String) : Bool :=
  (List.range (s.length + 1)).any (fun i => sub.data.isPrefixOf (s.data.drop i))

/-! ## Permission checker (permission/permission.go) -/

/-- Actions are strings in the source; NewChecker lower-cases them. -/
def ActionAllow : String := "allow"

/-- The deny action string, compared against by Check. -/
def ActionDeny : String := "deny"

/-- A single permission rule, as in permission.go. -/
structure Rule where
  pattern : String
  action : String
deriving Repr, DecidableEq

/-- matchPattern from permission.go.  The last branch delegates to the
doublestar library, abstracted here as the parameter ds. -/
def matchPattern (ds : String → String → Bool) (pat cmd : String) : Bool :=
  if pat == "*" then true
  else if !(pat.data.contains '*') then pat == cmd
  else if goHasSuffix pat "*" then goHasPrefix cmd (goDropLast pat)
  else ds pat cmd

/-- getSortedPatterns: all keys except "*" in sorted order.  The Go map is
modelled as an association list of (pattern, action) pairs. -/
def getSortedPatterns (patterns : List (String × String)) : List String :=
  sortStrings ((patterns.map Prod.fst).filter (fun p => p != "*"))

/-- NewChecker: the "*" rule first (if present), then the remaining patterns
in sorted order, actions lower-cased. -/
def NewChecker (patterns : List (String × String)) : List Rule :=
  (match patterns.lookup "*" with
   | some a => [⟨"*", goToLower a⟩]
   | none => []) ++
  (getSortedPatterns patterns).map
    (fun p => ⟨p, goToLower ((patterns.lookup p).getD "")⟩)

/-- evaluateRules: walk all rules in order; each matching rule overwrites the
running (action, pattern); start from (deny, ""). -/
def evaluateRules (ds : String → String → Bool) (rules : List Rule)
    (cmd : String) : String × String :=
  rules.foldl
    (fun acc r => if matchPattern ds r.pattern cmd then (r.action, r.pattern) else acc)
    (ActionDeny, "")

/-- The last rule of the table matching the command, if any. -/
def lastMatching (ds : String → String → Bool) (rules : List Rule)
    (cmd : String) : Option Rule :=
  (rules.filter (fun r => matchPattern ds r.pattern cmd)).getLast?

/-- denyError from permission.go (the quote character is escaped to \x27). -/
def denyError (matchedPattern cmd : String) : String :=
  if matchedPattern == "" then
    "command denied (no matching allow rule): " ++ cmd
  else
    "command denied by rule \x27" ++ matchedPattern ++ "\x27: " ++ cmd

/-- The walk over call expressions inside Check: the first call expression
(with a nonempty printed form) that evaluates to deny produces the error. -/
def firstDeny (ds : String → String → Bool) (rules : List Rule) :
    List String → Option String
  | [] => none
  | c :: rest =>
      if c == "" then firstDeny ds rules rest
      else
        let ap := evaluateRules ds rules c
        if ap.1 == ActionDeny then some (denyError ap.2 c)
        else firstDeny ds rules rest

/-- Checker.Check.  The external shell parser is abstracted: parsed is the
list of printed call expressions of the trimmed command in walk order, or
none when the command does not parse. -/
def Check (ds : String → String → Bool) (rules : List Rule) (cmd : String)
    (parsed : Option (List String)) : Option String :=
  if goTrimSpace cmd == "" then some "empty command"
  else
    match parsed with
    | none => some "failed to parse command"
    | some calls => firstDeny ds rules calls

/-! ## Path resolver (workspace/workspace.go safePath) -/

/-- One step of lexical path cleaning: components are pushed on a stack,
".." pops, "." and empty components vanish. -/
def cleanComponents : List String → List String → List String
  | acc, [] => acc.reverse
  | acc, c :: rest =>
      if c == "" || c == "." then cleanComponents acc rest
      else if c == ".." then cleanComponents acc.tail rest
      else cleanComponents (c :: acc) rest

/-- Lexical cleaning of an absolute slash-separated path, as done by
filepath.Clean (and hence filepath.Abs on an already absolute path). -/
def cleanPath (s : String) : String :=
  "/" ++ joinWith "/" (cleanComponents [] (goSplit s '/'))

/-- filepath.Abs(filepath.Join(root, p)) for an absolute, cleaned root. -/
def joinAbs (root p : String) : String := cleanPath (root ++ "/" ++ p)

/-- Outcome of filepath.EvalSymlinks on one path. -/
inductive EvalRes where
  | ok (real : String)
  | notExist
  | failed
deriving Repr, DecidableEq

/-- The ambient filesystem, abstracted: lstatOK is whether os.Lstat succeeds,
symEval is filepath.EvalSymlinks, and canon is the real location a path
resolves to (defined also for paths that do not exist yet: where a creation
through existing symlinked parents would land). -/
structure FS where
  lstatOK : String → Bool
  symEval : String → EvalRes
  canon : String → String

/-- Errors surfaced by safePath. -/
inductive PathErr where
  | outsideRoot
  | symlinkEscape
  | resolveFailed
deriving Repr, DecidableEq

/-- EvalSymlinks of the root, falling back to the raw root on failure. -/
def realRootOf (fs : FS) (root : String) : String :=
  match fs.symEval root with
  | .ok r => r
  | _ => root

/-- safePath from workspace.go. -/
def safePath (fs : FS) (root p : String) : Except PathErr String :=
  let absPath := joinAbs root p
  if !(goHasPrefix absPath root) then .error .outsideRoot
  else if fs.lstatOK absPath then
    match fs.symEval absPath with
    | .ok realPath =>
        if goHasPrefix realPath (realRootOf fs root) then .ok realPath
        else .error .symlinkEscape
    | .notExist => .ok absPath
    | .failed => .error .resolveFailed
  else .ok absPath

/-- resolveWorkdir from workspace.go: empty workdir means the root. -/
def resolveWorkdir (fs : FS) (root wd : String) : Except PathErr String :=
  if wd == "" then .ok root else safePath fs root wd

/-- Whether Workspace.Bash reaches executeBashCommand: the permission check
passes and the workdir resolves. -/
def bashProceeds (fs : FS) (root : String) (ds : String → String → Bool)
    (rules : List Rule) (cmd : String) (parsed : Option (List String))
    (wd : String) : Bool :=
  (Check ds rules cmd parsed).isNone &&
    (match resolveWorkdir fs root wd with
     | .ok _ => true
     | .error _ => false)

/-! ## Large-output processor (workspace/large_output.go) -/

/-- Directory for persisted large outputs. -/
def OutputsDir : String := ".work/outputs"

/-- Configuration of the large-output processor. -/
structure LargeOutputConfig where
  maxOutputSize : Nat
  previewSize : Nat
  previewLines : Nat
deriving Repr, DecidableEq

/-- DefaultLargeOutputConfig: 30000 / 8000 / 20. -/
def DefaultLargeOutputConfig : LargeOutputConfig := ⟨30000, 8000, 20⟩

/-- Result record of Process (FilePath is the Go zero value "" when unset). -/
structure ProcessResult where
  content : String
  truncated : Bool
  filePath : String
  totalSize : Nat
deriving Repr, DecidableEq

/-- truncateContent from large_output.go: first previewLines lines, the join
truncated to previewSize chars, wrapped in the envelope. -/
def truncateContent (cfg : LargeOutputConfig) (content filePath : String) : String :=
  let lines := goSplit content '\n'
  let totalLines := lines.length
  let previewLines := min cfg.previewLines totalLines
  let preview0 := joinWith "\n" (lines.take previewLines)
  let preview :=
    if preview0.length > cfg.previewSize then
      goTake preview0 cfg.previewSize ++ "\n... [preview truncated]"
    else preview0
  "<output_truncated>\n" ++
  "Output too large (" ++ toString content.length ++ " chars, " ++
  toString totalLines ++ " lines)." ++
  (if filePath != "" then " Full content saved to: " ++ filePath ++ "\n\n"
   else " Could not save full content.\n\n") ++
  "Preview (first " ++ toString previewLines ++ " lines):\n```\n" ++
  preview ++ "\n```\n\n" ++
  (if filePath != "" then
    "To read more: read(\"" ++ filePath ++ "\", offset=" ++
    toString previewLines ++ ", limit=100)\n"
   else "") ++
  "</output_truncated>"

/-- Process from large_output.go.  The random id and the unix timestamp in
the generated filename, and the success of WriteRaw, are inputs: rand8,
unix, saveOk. -/
def Process (cfg : LargeOutputConfig) (saveOk : Bool) (rand8 : String)
    (unix : Nat) (content pfx : String) : ProcessResult :=
  let totalSize := content.length
  if content.length ≤ cfg.maxOutputSize then
    ⟨content, false, "", totalSize⟩
  else
    let filename := pfx ++ "_" ++ rand8 ++ "_" ++ toString unix ++ ".txt"
    let filePath := OutputsDir ++ "/" ++ filename
    if saveOk then ⟨truncateContent cfg content filePath, true, filePath, totalSize⟩
    else ⟨truncateContent cfg content "", true, "", totalSize⟩

/-! ## Bash execution and task results (workspace.go, ws/handler.go) -/

/-- resolveTimeout from workspace.go, in seconds. -/
def resolveTimeout (timeoutSec : Int) : Nat :=
  if timeoutSec > 0 then timeoutSec.toNat else 120

/-- Classification of a cmd.Run error as discriminated by
executeBashCommand: an exec.ExitError carrying the exit code, or any other
error together with whether ctx.Err() == context.DeadlineExceeded. -/
inductive RunErr where
  | exitErr (code : Int)
  | otherErr (deadlineExceeded : Bool)
deriving Repr, DecidableEq

/-- The bash result record (fields relevant to the claims). -/
structure BashResult where
  stdout : String
  stderr : String
  exitCode : Int
deriving Repr, DecidableEq

/-- executeBashCommand from workspace.go, with the subprocess outcome
abstracted as runRes (none = cmd.Run returned nil). -/
def executeBashCommand (stdout stderr : String) (runRes : Option RunErr) :
    Except String BashResult :=
  match runRes with
  | none => .ok ⟨stdout, stderr, 0⟩
  | some (.exitErr code) => .ok ⟨stdout, stderr, code⟩
  | some (.otherErr true) => .ok ⟨stdout, "command timed out", 124⟩
  | some (.otherErr false) => .error "failed to execute command"

/-- The task.result success/error/exit_code triple sent by the handler. -/
structure TaskResult where
  success : Bool
  errorMsg : String
  exitCode : Int
deriving Repr, DecidableEq

/-- executeAndSendResult from ws/handler.go: an operation error becomes
success=false with exit code 1; otherwise success=true with exit code 0. -/
def executeAndSendResult (r : Except String BashResult) : TaskResult :=
  match r with
  | .error e => ⟨false, e, 1⟩
  | .ok _ => ⟨true, "", 0⟩

/-! ## LimitedWriter (workspace/workspace.go) -/

/-- State of a LimitedWriter: bytes forwarded so far (curr) and the bytes
accumulated by the underlying writer, which never errors. -/
structure LWState where
  curr : Nat
  out : List Nat
deriving Repr, DecidableEq

/-- LimitedWriter.Write: returns the reported n and the new state. -/
def lwWrite (limit : Nat) (st : LWState) (p : List Nat) : Nat × LWState :=
  if st.curr ≥ limit then (p.length, st)
  else if p.length > limit - st.curr then
    (p.length, ⟨st.curr + (limit - st.curr), st.out ++ p.take (limit - st.curr)⟩)
  else (p.length, ⟨st.curr + p.length, st.out ++ p⟩)

/-- A sequence of Write calls; returns the final state and the list of
reported byte counts. -/
def lwRun (limit : Nat) (st : LWState) : List (List Nat) → LWState × List Nat
  | [] => (st, [])
  | p :: ps =>
      let r := lwWrite limit st p
      let rest := lwRun limit r.2 ps
      (rest.1, r.1 :: rest.2)

/-! ## Session client heartbeats (ws/client.go) -/

/-- The environment snapshot (contents irrelevant to the claims). -/
structure EnvironmentInfo where
  os : String
  arch : String
deriving Repr, DecidableEq

/-- The heartbeat payload. -/
structure HeartbeatPayload where
  worknodeID : String
  name : String
  labels : List String
  version : String
  environment : Option EnvironmentInfo
deriving Repr, DecidableEq

/-- The client state relevant to heartbeats. -/
structure SessionClient where
  worknodeID : String
  name : String
  labels : List String
  version : String
  envInfo : EnvironmentInfo
  envInfoSent : Bool
deriving Repr, DecidableEq

/-- sendHeartbeat from ws/client.go: attaches the environment snapshot only
when the one-shot flag is unset, and sets the flag. -/
def sendHeartbeat (c : SessionClient) : SessionClient × HeartbeatPayload :=
  let payload : HeartbeatPayload :=
    ⟨c.worknodeID, c.name, c.labels, c.version, none⟩
  if c.envInfoSent then (c, payload)
  else ({ c with envInfoSent := true }, { payload with environment := some c.envInfo })

/-- The first n heartbeats emitted on one connection. -/
def heartbeats (c : SessionClient) : Nat → List HeartbeatPayload
  | 0 => []
  | n + 1 =>
      let r := sendHeartbeat c
      r.2 :: heartbeats r.1 n

/-- The connection-scoped state reset performed by RunWithReconnect before
reconnecting: the env-info-sent flag is cleared. -/
def reconnectReset (c : SessionClient) : SessionClient :=
  { c with envInfoSent := false }

/-! ## Reconnect backoff (ws/client.go RunWithReconnect) -/

/-- maxReconnectAttempts from ws/client.go. -/
def maxReconnectAttempts : Nat := 10

/-- initialReconnectDelay, in seconds. -/
def initialReconnectDelay : Nat := 1

/-- maxReconnectDelay (5 minutes), in seconds. -/
def maxReconnectDelay : Nat := 300

/-- Backoff state: consecutive-failure counter and next delay in seconds. -/
structure BackoffState where
  attempt : Nat
  delay : Nat
deriving Repr, DecidableEq

/-- The state RunWithReconnect starts from (and resets to on success). -/
def initBackoff : BackoffState := ⟨0, initialReconnectDelay⟩

/-- One failed Connect: bump the counter; give up (none) past the limit;
otherwise sleep the current delay and double it up to the ceiling. -/
def stepFail (st : BackoffState) : Option (Nat × BackoffState) :=
  let attempt := st.attempt + 1
  if attempt > maxReconnectAttempts then none
  else some (st.delay, ⟨attempt, min (st.delay * 2) maxReconnectDelay⟩)

/-- The delay before the (k+1)-st retry in an uninterrupted failure run. -/
def delaySeq : Nat → Nat
  | 0 => initialReconnectDelay
  | k + 1 => min (delaySeq k * 2) maxReconnectDelay

/-- Outcome of driving RunWithReconnect through a list of Connect outcomes
(true = success): either it gave up returning an error, or it is still
alive; slept records the backoff delays in order. -/
inductive RunOutcome where
  | gaveUp (slept : List Nat)
  | alive (st : BackoffState) (slept : List Nat)
deriving Repr, DecidableEq

/-- The reconnect loop of RunWithReconnect, abstracted over the sequence of
Connect outcomes. -/
def runLoop (st : BackoffState) (slept : List Nat) : List Bool → RunOutcome
  | [] => .alive st slept
  | true :: rest => runLoop initBackoff slept rest
  | false :: rest =>
      match stepFail st with
      | none => .gaveUp slept
      | some (d, st2) => runLoop st2 (slept ++ [d]) rest

/-! ## Grep fallback (workspace.go grepWithGo) -/

/-- One grep match. -/
structure GrepMatch where
  path : String
  lineNumber : Nat
  content : String
deriving Repr, DecidableEq

/-- The per-file scan of grepWithGo: line numbers count from k, and a line
matches when it contains the pattern as a literal substring. -/
def grepFile (pat path : String) : List String → Nat → List GrepMatch
  | [], _ => []
  | l :: ls, k =>
      (if goContains l pat then [⟨path, k, l⟩] else []) ++ grepFile pat path ls (k + 1)

/-- grepWithGo over the globbed files (each a path with its lines). -/
def grepWithGo (pat : String) (files : List (String × List String)) :
    List GrepMatch :=
  (files.map (fun f => grepFile pat f.1 f.2 1)).flatten

/-- The dispatch of Workspace.Grep: ripgrep when rg is on PATH (its matches
abstracted as rgMatches), the internal fallback otherwise. -/
def Grep (rgOnPath : Bool) (rgMatches : List GrepMatch) (pat : String)
    (files : List (String × List String)) : List GrepMatch :=
  if rgOnPath then rgMatches else grepWithGo pat files

/-! ## Helper lemmas: byte-wise string order and the sort model -/

theorem lexLe_total (as bs : List Char) : lexLe as bs = true ∨ lexLe bs as = true := by
  induction as generalizing bs with
  | nil => left; rfl
  | cons a as ih =>
    cases bs with
    | nil => right; rfl
    | cons b bs =>
      by_cases h1 : a < b
      · left; simp [lexLe, h1]
      · by_cases h2 : b < a
        · right; simp [lexLe, h1, h2]
        · simpa [lexLe, h1, h2] using ih bs

theorem lexLe_trans (as bs cs : List Char) (h1 : lexLe as bs = true)
    (h2 : lexLe bs cs = true) : lexLe as cs = true := by
  induction as generalizing bs cs with
  | nil => rfl
  | cons a as ih =>
    cases bs with
    | nil => simp [lexLe] at h1
    | cons b bs =>
      cases cs with
      | nil => simp [lexLe] at h2
      | cons c cs =>
        by_cases hab : a < b
        · by_cases hbc : b < c
          · simp [lexLe, lt_trans hab hbc]
          · by_cases hcb : c < b
            · simp [lexLe, hbc, hcb] at h2
            · have hbc2 : b = c := le_antisymm (not_lt.mp hcb) (not_lt.mp hbc)
              simp [lexLe, hbc2 ▸ hab]
        · by_cases hba : b < a
          · simp [lexLe, hab, hba] at h1
          · have hab2 : a = b := le_antisymm (not_lt.mp hba) (not_lt.mp hab)
            subst hab2
            by_cases hbc : a < c
            · simp [lexLe, hbc]
            · by_cases hcb : c < a
              · simp [lexLe, hbc, hcb] at h2
              · simp only [lexLe, if_neg hbc, if_neg hcb] at h2 ⊢
                simp only [lexLe, if_neg hab] at h1
                exact ih bs cs h1 h2

theorem goLe_total (a b : String) : goLe a b = true ∨ goLe b a = true :=
  lexLe_total a.data b.data

theorem goLe_trans (a b c : String) (h1 : goLe a b = true) (h2 : goLe b c = true) :
    goLe a c = true :=
  lexLe_trans a.data b.data c.data h1 h2

theorem insertSorted_perm (x : String) (l : List String) :
    List.Perm (insertSorted x l) (x :: l) := by
  induction l with
  | nil => rfl
  | cons y ys ih =>
    by_cases h : goLe x y
    · simp [insertSorted, h]
    · simp only [insertSorted, if_neg h]
      exact ((ih.cons y).trans (List.Perm.swap x y ys))

theorem insertSorted_sorted (x : String) (l : List String)
    (hl : List.Pairwise (fun a b => goLe a b = true) l) :
    List.Pairwise (fun a b => goLe a b = true) (insertSorted x l) := by
  induction l with
  | nil => simp [insertSorted]
  | cons y ys ih =>
    by_cases h : goLe x y
    · simp only [insertSorted, if_pos h]
      refine List.Pairwise.cons ?_ hl
      intro z hz
      rcases List.mem_cons.mp hz with rfl | hz2
      · exact h
      · exact goLe_trans x y z h ((List.pairwise_cons.mp hl).1 z hz2)
    · have hyx : goLe y x = true := by
        rcases goLe_total x y with h2 | h2
        · exact absurd h2 h
        · exact h2
      simp only [insertSorted, if_neg h]
      refine List.Pairwise.cons ?_ (ih (List.pairwise_cons.mp hl).2)
      intro z hz
      have hz2 := (insertSorted_perm x ys).mem_iff.mp hz
      rcases List.mem_cons.mp hz2 with rfl | hz3
      · exact hyx
      · exact (List.pairwise_cons.mp hl).1 z hz3

theorem sortStrings_sorted (l : List String) :
    List.Pairwise (fun a b => goLe a b = true) (sortStrings l) := by
  induction l with
  | nil => simp [sortStrings]
  | cons x xs ih => exact insertSorted_sorted x (sortStrings xs) ih

theorem sortStrings_perm (l : List String) : List.Perm (sortStrings l) l := by
  induction l with
  | nil => rfl
  | cons x xs ih => exact (insertSorted_perm x (sortStrings xs)).trans (ih.cons x)

/-! ## Helper lemmas: last-match-wins evaluation -/

theorem evaluateRules_eq_lastMatching (ds : String → String → Bool)
    (rules : List Rule) (cmd : String) :
    evaluateRules ds rules cmd =
      match lastMatching ds rules cmd with
      | some r => (r.action, r.pattern)
      | none => (ActionDeny, "") := by
  induction rules using List.reverseRecOn with
  | nil => rfl
  | append_singleton rs r ih =>
    by_cases h : matchPattern ds r.pattern cmd
    · simp [evaluateRules, lastMatching, List.foldl_append, List.filter_append, h,
        List.getLast?_concat]
    · simp only [evaluateRules, lastMatching, List.foldl_append, List.filter_append,
        List.foldl_cons, List.foldl_nil, h] at ih ⊢
      simpa [h] using ih

/-! ## Helper lemmas: Check and firstDeny -/

theorem firstDeny_none_iff (ds : String → String → Bool) (rules : List Rule)
    (calls : List String) :
    firstDeny ds rules calls = none ↔
      ∀ c ∈ calls, c ≠ "" → (evaluateRules ds rules c).1 ≠ ActionDeny := by
  induction calls with
  | nil => simp [firstDeny]
  | cons c rest ih =>
    by_cases hc : c = ""
    · subst hc
      simpa [firstDeny] using ih
    · have hc2 : (c == "") = false := by simpa using hc
      by_cases hd : (evaluateRules ds rules c).1 = ActionDeny
      · simp [firstDeny, hc2, hd, hc]
      · have hd2 : ((evaluateRules ds rules c).1 == ActionDeny) = false := by
          simpa using hd
        simp only [firstDeny, hc2, hd2, Bool.false_eq_true, if_false]
        rw [ih]
        constructor
        · intro h x hx hxne
          rcases List.mem_cons.mp hx with rfl | hx2
          · exact hd
          · exact h x hx2 hxne
        · intro h x hx hxne
          exact h x (List.mem_cons_of_mem c hx) hxne

theorem firstDeny_some (ds : String → String → Bool) (rules : List Rule)
    (calls : List String) (msg : String)
    (h : firstDeny ds rules calls = some msg) :
    ∃ c ∈ calls, c ≠ "" ∧ (evaluateRules ds rules c).1 = ActionDeny ∧
      msg = denyError (evaluateRules ds rules c).2 c := by
  induction calls with
  | nil => simp [firstDeny] at h
  | cons c rest ih =>
    by_cases hc : c = ""
    · subst hc
      have h2 : firstDeny ds rules rest = some msg := h
      rcases ih h2 with ⟨x, hx, hprop⟩
      exact ⟨x, List.mem_cons_of_mem _ hx, hprop⟩
    · have hc2 : (c == "") = false := by simpa using hc
      by_cases hd : (evaluateRules ds rules c).1 = ActionDeny
      · have hd2 : ((evaluateRules ds rules c).1 == ActionDeny) = true := by
          simpa using hd
        simp only [firstDeny, hc2, Bool.false_eq_true, if_false, hd2, if_true,
          Option.some.injEq] at h
        exact ⟨c, List.mem_cons_self c rest, hc, hd, h.symm⟩
      · have hd2 : ((evaluateRules ds rules c).1 == ActionDeny) = false := by
          simpa using hd
        simp only [firstDeny, hc2, Bool.false_eq_true, if_false, hd2] at h
        rcases ih h with ⟨x, hx, hprop⟩
        exact ⟨x, List.mem_cons_of_mem _ hx, hprop⟩

/-! ## Helper lemmas: LimitedWriter -/

theorem lwWrite_fst (limit : Nat) (st : LWState) (p : List Nat) :
    (lwWrite limit st p).1 = p.length := by
  unfold lwWrite
  split_ifs <;> rfl

theorem lwWrite_inv (limit : Nat) (st : LWState) (p : List Nat)
    (h1 : st.out.length = st.curr) (h2 : st.curr ≤ limit) :
    (lwWrite limit st p).2.out.length = (lwWrite limit st p).2.curr ∧
      (lwWrite limit st p).2.curr ≤ limit := by
  unfold lwWrite
  split_ifs with hge hlen
  · exact ⟨h1, h2⟩
  · constructor
    · show (st.out ++ p.take (limit - st.curr)).length = st.curr + (limit - st.curr)
      simp only [List.length_append, List.length_take, h1]
      omega
    · show st.curr + (limit - st.curr) ≤ limit
      omega
  · constructor
    · show (st.out ++ p).length = st.curr + p.length
      simp [List.length_append, h1]
    · show st.curr + p.length ≤ limit
      omega

theorem lwRun_spec (limit : Nat) (ps : List (List Nat)) (st : LWState)
    (h1 : st.out.length = st.curr) (h2 : st.curr ≤ limit) :
    (lwRun limit st ps).2 = ps.map List.length ∧
      (lwRun limit st ps).1.out.length ≤ limit := by
  induction ps generalizing st with
  | nil => simpa [lwRun, ← h1] using h2
  | cons p ps ih =>
    have hw := lwWrite_inv limit st p h1 h2
    have hrest := ih (lwWrite limit st p).2 hw.1 hw.2
    simp only [lwRun, List.map_cons]
    exact ⟨by rw [lwWrite_fst, hrest.1], hrest.2⟩

/-! ## Helper lemmas: heartbeats -/

theorem heartbeats_after_sent (c : SessionClient) (h : c.envInfoSent = true) :
    ∀ n, ∀ p ∈ heartbeats c n, p.environment = none := by
  intro n
  induction n generalizing c with
  | zero => simp [heartbeats]
  | succ n ih =>
    intro p hp
    simp only [heartbeats, sendHeartbeat, h, if_true] at hp
    rcases List.mem_cons.mp hp with rfl | hp2
    · rfl
    · exact ih c h p hp2

theorem heartbeats_env_count (c : SessionClient) (n : Nat) :
    ((heartbeats c n).filter (fun p => p.environment.isSome)).length ≤ 1 := by
  cases n with
  | zero => simp [heartbeats]
  | succ n =>
    by_cases h : c.envInfoSent
    · have hall := heartbeats_after_sent c h (n + 1)
      have : (heartbeats c (n + 1)).filter (fun p => p.environment.isSome) = [] := by
        rw [List.filter_eq_nil_iff]
        intro p hp
        simp [hall p hp]
      simp [this]
    · have h2 : c.envInfoSent = false := by simpa using h
      have hall := heartbeats_after_sent { c with envInfoSent := true } rfl n
      have hrest :
          (heartbeats { c with envInfoSent := true } n).filter
            (fun p => p.environment.isSome) = [] := by
        rw [List.filter_eq_nil_iff]
        intro p hp
        simp [hall p hp]
      simp [heartbeats, sendHeartbeat, h2, hrest]

/-! ## Helper lemmas: reconnect backoff -/

theorem delaySeq_le_max (k : Nat) : delaySeq k ≤ maxReconnectDelay := by
  cases k with
  | zero => simp [delaySeq, initialReconnectDelay, maxReconnectDelay]
  | succ k => exact min_le_right _ _

theorem delaySeq_mono (k : Nat) : delaySeq k ≤ delaySeq (k + 1) := by
  have h1 : delaySeq k ≤ delaySeq k * 2 := by omega
  exact le_min h1 (delaySeq_le_max k)

theorem runLoop_failStreak (m k : Nat) (s : List Nat)
    (h : k + m ≤ maxReconnectAttempts) :
    runLoop ⟨k, delaySeq k⟩ s (List.replicate m false) =
      .alive ⟨k + m, delaySeq (k + m)⟩
        (s ++ (List.range m).map (fun i => delaySeq (k + i))) := by
  induction m generalizing k s with
  | zero => simp [runLoop]
  | succ m ih =>
    have hk : ¬ (k + 1 > maxReconnectAttempts) := by omega
    have hstep : stepFail ⟨k, delaySeq k⟩ =
        some (delaySeq k, ⟨k + 1, delaySeq (k + 1)⟩) := by
      simp only [stepFail, hk, if_false]
      rfl
    have hrec := ih (k + 1) (s ++ [delaySeq k]) (by omega)
    have e2 : s ++ [delaySeq k] ++
        (List.range m).map (fun i => delaySeq (k + 1 + i)) =
        s ++ (List.range (m + 1)).map (fun i => delaySeq (k + i)) := by
      rw [List.append_assoc, List.singleton_append, List.range_succ_eq_map,
        List.map_cons, List.map_map]
      congr 2
      apply List.map_congr_left
      intro i _
      simp only [Function.comp]
      congr 1
      omega
    simp only [List.replicate_succ, runLoop, hstep]
    rw [hrec, show k + 1 + m = k + (m + 1) from by omega, e2]

/-! ## Helper lemmas: grep fallback -/

theorem goContains_iff (s sub : String) :
    goContains s sub = true ↔
      ∃ t1 t2 : List Char, s.data = t1 ++ sub.data ++ t2 := by
  unfold goContains
  rw [List.any_eq_true]
  constructor
  · rintro ⟨i, _, hpre⟩
    rcases List.isPrefixOf_iff_prefix.mp hpre with ⟨t2, ht⟩
    refine ⟨s.data.take i, t2, ?_⟩
    rw [List.append_assoc, ht, List.take_append_drop]
  · rintro ⟨t1, t2, ht⟩
    refine ⟨t1.length, ?_, ?_⟩
    · rw [List.mem_range]
      have : s.length = s.data.length := rfl
      rw [this, ht]
      simp only [List.length_append]
      omega
    · apply List.isPrefixOf_iff_prefix.mpr
      rw [ht, List.append_assoc, List.drop_left]
      exact ⟨t2, rfl⟩

theorem grepFile_mem (pat path : String) (ls : List String) (k : Nat)
    (m : GrepMatch) :
    m ∈ grepFile pat path ls k ↔
      ∃ i l, ls.get? i = some l ∧ m = ⟨path, k + i, l⟩ ∧
        goContains l pat = true := by
  induction ls generalizing k with
  | nil => simp [grepFile]
  | cons l0 ls ih =>
    simp only [grepFile, List.mem_append, ih]
    constructor
    · rintro (hin | ⟨i, l, hget, hm, hcont⟩)
      · by_cases hc : goContains l0 pat
        · simp only [if_pos hc, List.mem_singleton] at hin
          exact ⟨0, l0, rfl, by simpa using hin, hc⟩
        · simp [if_neg hc] at hin
      · exact ⟨i + 1, l, by simpa using hget, by simpa [Nat.add_assoc, Nat.add_comm 1 i] using hm, hcont⟩
    · rintro ⟨i, l, hget, hm, hcont⟩
      cases i with
      | zero =>
        left
        have hl : l0 = l := by simpa using hget
        subst hl
        simp [if_pos hcont, hm]
      | succ i =>
        right
        refine ⟨i, l, by simpa using hget, ?_, hcont⟩
        rw [hm]
        congr 1
        omega

/-! ## Claim theorems -/

/-- Claim C2: the permission checker evaluates the rules in construction
order — the "*" pattern first if present, then all other patterns in
lexicographic order — with each matching rule overwriting the running
decision; the final decision is the action of the last matching rule, and if no
rule matches the decision is deny.  In particular, with rules "*" deny,
"kubectl *" deny, "kubectl get *" allow, the command "kubectl get pods" is
allowed and "kubectl delete pod x" is denied by "kubectl *". -/
theorem claim_C2 :
    (∀ pats : List (String × String),
        (NewChecker pats).map Rule.pattern =
          (match pats.lookup "*" with
           | some _ => ["*"]
           | none => []) ++ getSortedPatterns pats ∧
        List.Pairwise (fun a b => goLe a b = true) (getSortedPatterns pats) ∧
        List.Perm (getSortedPatterns pats)
          ((pats.map Prod.fst).filter (fun p => p != "*"))) ∧
    (∀ (ds : String → String → Bool) (rules : List Rule) (cmd : String),
        evaluateRules ds rules cmd =
          match lastMatching ds rules cmd with
          | some r => (r.action, r.pattern)
          | none => (ActionDeny, "")) ∧
    (∀ ds : String → String → Bool,
        evaluateRules ds
            (NewChecker [("*", "deny"), ("kubectl *", "deny"), ("kubectl get *", "allow")])
            "kubectl get pods" = ("allow", "kubectl get *") ∧
        evaluateRules ds
            (NewChecker [("*", "deny"), ("kubectl *", "deny"), ("kubectl get *", "allow")])
            "kubectl delete pod x" = ("deny", "kubectl *")) := by
  refine ⟨fun pats => ⟨?_, sortStrings_sorted _, sortStrings_perm _⟩,
    evaluateRules_eq_lastMatching, fun ds => ⟨rfl, rfl⟩⟩
  have hcomp : (Rule.pattern ∘ fun p : String =>
      ({ pattern := p, action := goToLower ((pats.lookup p).getD "") } : Rule)) =
      fun p => p := rfl
  cases h : pats.lookup "*" <;>
    simp [NewChecker, getSortedPatterns, h, List.map_map, hcomp]

/-- Claim C4: pattern matching in the permission checker: "*" matches any
string; a pattern containing no "*" matches only a command exactly equal to
it; a pattern ending in "*" matches exactly the commands having the
portion before the final "*" as a prefix; every other pattern is delegated
to the doublestar glob matcher. -/
theorem claim_C4 (ds : String → String → Bool) (pat cmd : String) :
    (pat = "*" → matchPattern ds pat cmd = true) ∧
    (pat.data.contains '*' = false →
       (matchPattern ds pat cmd = true ↔ pat = cmd)) ∧
    (pat ≠ "*" → pat.data.contains '*' = true → goHasSuffix pat "*" = true →
       matchPattern ds pat cmd = goHasPrefix cmd (goDropLast pat)) ∧
    (pat.data.contains '*' = true → goHasSuffix pat "*" = false →
       matchPattern ds pat cmd = ds pat cmd) := by
  refine ⟨?_, ?_, ?_, ?_⟩
  · intro h
    subst h
    rfl
  · intro h
    have hne : (pat == "*") = false := by
      by_cases he : pat = "*"
      · subst he
        exact absurd h (by decide)
      · simpa using he
    have hmem : '*' ∉ pat.data := by simpa using h
    simp [matchPattern, hne, hmem]
  · intro hne hc hend
    have hne2 : (pat == "*") = false := by simpa using hne
    have hmem : '*' ∈ pat.data := by simpa using hc
    simp [matchPattern, hne2, hmem, hend]
  · intro hc hend
    have hne : (pat == "*") = false := by
      by_cases he : pat = "*"
      · subst he
        exact absurd hend (by decide)
      · simpa using he
    have hmem : '*' ∈ pat.data := by simpa using hc
    simp [matchPattern, hne, hmem, hend]

/-- Witness for C4 at concrete patterns and commands. -/
theorem claim_C4_witness :
    matchPattern (fun _ _ => false) "*" "anything at all" = true ∧
    (matchPattern (fun _ _ => false) "pwd" "pwd" = true ↔ "pwd" = "pwd") ∧
    matchPattern (fun _ _ => false) "kubectl get *" "kubectl get pods" =
      goHasPrefix "kubectl get pods" (goDropLast "kubectl get *") ∧
    matchPattern (fun _ _ => false) "a*b" "axb" = (fun _ _ => false) "a*b" "axb" :=
  ⟨(claim_C4 (fun _ _ => false) "*" "anything at all").1 rfl,
   (claim_C4 (fun _ _ => false) "pwd" "pwd").2.1 (by decide),
   (claim_C4 (fun _ _ => false) "kubectl get *" "kubectl get pods").2.2.1
     (by decide) (by decide) (by decide),
   (claim_C4 (fun _ _ => false) "a*b" "axb").2.2.2 (by decide) (by decide)⟩

/-- Claim C6: a bash execution whose error is not an exec.ExitError and
whose context deadline was exceeded yields exit code 124 and stderr
"command timed out" without an operation error, so the handler reports the
task result with success=true; any other non-ExitError execution failure
returns an error and is reported with success=false; the timeout defaults
to 120 seconds when no positive timeout argument is given and is otherwise
the value given by the caller. -/
theorem claim_C6 (stdout stderr : String) :
    executeBashCommand stdout stderr (some (.otherErr true)) =
      .ok ⟨stdout, "command timed out", 124⟩ ∧
    executeAndSendResult (executeBashCommand stdout stderr (some (.otherErr true))) =
      ⟨true, "", 0⟩ ∧
    executeBashCommand stdout stderr (some (.otherErr false)) =
      .error "failed to execute command" ∧
    executeAndSendResult (executeBashCommand stdout stderr (some (.otherErr false))) =
      ⟨false, "failed to execute command", 1⟩ ∧
    (∀ t : Int, t ≤ 0 → resolveTimeout t = 120) ∧
    (∀ t : Int, 0 < t → resolveTimeout t = t.toNat) := by
  refine ⟨rfl, rfl, rfl, rfl, ?_, ?_⟩
  · intro t ht
    have : ¬ (t > 0) := by omega
    simp [resolveTimeout, this]
  · intro t ht
    simp [resolveTimeout, ht]

/-- Witness for C6 at concrete timeout arguments. -/
theorem claim_C6_witness :
    ((0 : Int) ≤ 0 ∧ resolveTimeout 0 = 120) ∧
    ((0 : Int) < 30 ∧ resolveTimeout 30 = (30 : Int).toNat) :=
  ⟨⟨by decide, (claim_C6 "out" "err").2.2.2.2.1 0 (by decide)⟩,
   ⟨by decide, (claim_C6 "out" "err").2.2.2.2.2 30 (by decide)⟩⟩

/-- Claim C9: every LimitedWriter.Write call reports n equal to the length
of its argument (the underlying writer never failing), including when bytes
are dropped at the limit or the write straddles it, and the total number of
bytes forwarded to the underlying writer never exceeds the configured
limit. -/
theorem claim_C9 (limit : Nat) (ps : List (List Nat)) :
    (∀ st p, (lwWrite limit st p).1 = p.length) ∧
    (lwRun limit ⟨0, []⟩ ps).2 = ps.map List.length ∧
    (lwRun limit ⟨0, []⟩ ps).1.out.length ≤ limit :=
  ⟨fun st p => lwWrite_fst limit st p,
   (lwRun_spec limit ps ⟨0, []⟩ rfl (Nat.zero_le _)).1,
   (lwRun_spec limit ps ⟨0, []⟩ rfl (Nat.zero_le _)).2⟩

/-- Claim C7: on each connection the environment snapshot is attached to
exactly the first heartbeat and to no later one (at most one environment
payload per connection), and the reconnect reset clears the one-shot flag
so the first heartbeat of the next connection carries the snapshot again. -/
theorem claim_C7 (c : SessionClient) :
    (c.envInfoSent = false → ∀ n : Nat,
       heartbeats c (n + 1) =
         ⟨c.worknodeID, c.name, c.labels, c.version, some c.envInfo⟩ ::
           heartbeats { c with envInfoSent := true } n ∧
       ∀ p ∈ (heartbeats c (n + 1)).tail, p.environment = none) ∧
    (∀ n, ((heartbeats c n).filter (fun p => p.environment.isSome)).length ≤ 1) ∧
    (reconnectReset c).envInfoSent = false ∧
    (∀ n, (heartbeats (reconnectReset c) (n + 1)).head? =
       some ⟨c.worknodeID, c.name, c.labels, c.version, some c.envInfo⟩) := by
  refine ⟨?_, heartbeats_env_count c, rfl, ?_⟩
  · intro h n
    constructor
    · simp [heartbeats, sendHeartbeat, h]
    · have heq : heartbeats c (n + 1) =
          ⟨c.worknodeID, c.name, c.labels, c.version, some c.envInfo⟩ ::
            heartbeats { c with envInfoSent := true } n := by
        simp [heartbeats, sendHeartbeat, h]
      rw [heq]
      intro p hp
      exact heartbeats_after_sent { c with envInfoSent := true } rfl n p hp
  · intro n
    simp [heartbeats, sendHeartbeat, reconnectReset]

/-- Witness for C7 on a concrete client. -/
theorem claim_C7_witness :
    (⟨"node-1", "runner", ["a"], "v1", ⟨"linux", "amd64"⟩, false⟩ :
        SessionClient).envInfoSent = false ∧
    heartbeats (⟨"node-1", "runner", ["a"], "v1", ⟨"linux", "amd64"⟩, false⟩ :
        SessionClient) 2 =
      ⟨"node-1", "runner", ["a"], "v1", some ⟨"linux", "amd64"⟩⟩ ::
        heartbeats { (⟨"node-1", "runner", ["a"], "v1", ⟨"linux", "amd64"⟩, false⟩ :
          SessionClient) with envInfoSent := true } 1 :=
  ⟨rfl,
   ((claim_C7 ⟨"node-1", "runner", ["a"], "v1", ⟨"linux", "amd64"⟩, false⟩).1
     rfl 1).1⟩

/-- Claim C8 (amended): the reconnect delay starts at 1 s and doubles after
each failed attempt up to a 5-minute ceiling, so the successive delays are
non-decreasing and never exceed 5 minutes; a successful connection resets
the attempt counter and delay to their initial values; and the loop gives
up with an error on the 11th consecutive failed connection attempt (the
initial failure plus 10 backoff retries), not before. -/
theorem claim_C8_amended :
    delaySeq 0 = initialReconnectDelay ∧
    (∀ k, delaySeq (k + 1) = min (delaySeq k * 2) maxReconnectDelay) ∧
    (∀ k, delaySeq k ≤ delaySeq (k + 1)) ∧
    (∀ k, delaySeq k ≤ maxReconnectDelay) ∧
    (∀ (st : BackoffState) (s : List Nat) (rest : List Bool),
       runLoop st s (true :: rest) = runLoop initBackoff s rest) ∧
    (∀ k m s, k + m ≤ maxReconnectAttempts →
       runLoop ⟨k, delaySeq k⟩ s (List.replicate m false) =
         .alive ⟨k + m, delaySeq (k + m)⟩
           (s ++ (List.range m).map (fun i => delaySeq (k + i)))) ∧
    runLoop initBackoff [] (List.replicate (maxReconnectAttempts + 1) false) =
      .gaveUp [1, 2, 4, 8, 16, 32, 64, 128, 256, 300] :=
  ⟨rfl, fun _ => rfl, delaySeq_mono, delaySeq_le_max,
   fun _ _ _ => rfl, fun k m s h => runLoop_failStreak m k s h, by decide⟩

/-- Witness for C8 at a concrete failure streak. -/
theorem claim_C8_amended_witness :
    0 + 3 ≤ maxReconnectAttempts ∧
    runLoop ⟨0, delaySeq 0⟩ [] (List.replicate 3 false) =
      .alive ⟨0 + 3, delaySeq (0 + 3)⟩
        ([] ++ (List.range 3).map (fun i => delaySeq (0 + i))) :=
  ⟨by decide, claim_C8_amended.2.2.2.2.2.1 0 3 [] (by decide)⟩

/-- Counterexample to C8 as stated: after 10 consecutive failed connection
attempts the loop has not given up — it is still alive and retrying (with
the 300 s ceiling delay), so it does not return an error after up to 10
failed attempts. -/
theorem claim_C8_counterexample :
    runLoop initBackoff [] (List.replicate 10 false) =
      .alive ⟨10, 300⟩ [1, 2, 4, 8, 16, 32, 64, 128, 256, 300] := by
  decide

/-- Claim C10: when rg is absent the grep fallback reports a match for a
line exactly when the line contains the pattern as a literal substring
(strings.Contains), with 1-based line numbers; the pattern is not
interpreted as a regular expression. -/
theorem claim_C10 (rgOnPath : Bool) (rgMatches : List GrepMatch) (pat : String)
    (files : List (String × List String)) (h : rgOnPath = false) :
    Grep rgOnPath rgMatches pat files = grepWithGo pat files ∧
    (∀ m : GrepMatch,
       m ∈ grepWithGo pat files ↔
         ∃ ls, (m.path, ls) ∈ files ∧
           ∃ i l, ls.get? i = some l ∧ m.content = l ∧ m.lineNumber = 1 + i ∧
             ∃ t1 t2 : List Char, l.data = t1 ++ pat.data ++ t2) ∧
    goContains "abc" "a.c" = false := by
  subst h
  refine ⟨rfl, ?_, by decide⟩
  intro m
  unfold grepWithGo
  rw [List.mem_flatten]
  constructor
  · rintro ⟨l2, hl2, hm⟩
    rcases List.mem_map.mp hl2 with ⟨f, hf, rfl⟩
    rcases (grepFile_mem pat f.1 f.2 1 m).mp hm with ⟨i, l, hget, hmeq, hcont⟩
    subst hmeq
    refine ⟨f.2, ?_, i, l, hget, rfl, rfl, (goContains_iff l pat).mp hcont⟩
    simpa using hf
  · rintro ⟨ls, hls, i, l, hget, hcontent, hline, t1, t2, hdecomp⟩
    refine ⟨grepFile pat m.path ls 1, ?_, ?_⟩
    · exact List.mem_map.mpr ⟨(m.path, ls), hls, rfl⟩
    · apply (grepFile_mem pat m.path ls 1 m).mpr
      refine ⟨i, l, hget, ?_, (goContains_iff l pat).mpr ⟨t1, t2, hdecomp⟩⟩
      cases m with
      | mk mp mn mc =>
        simp only at hcontent hline
        simp [hcontent, hline]

/-- Witness for C10 on a concrete file set. -/
theorem claim_C10_witness :
    (false = false) ∧
    Grep false [] "lo w" [("a.txt", ["hello world", "abc"])] =
      grepWithGo "lo w" [("a.txt", ["hello world", "abc"])] ∧
    (∀ m : GrepMatch,
       m ∈ grepWithGo "lo w" [("a.txt", ["hello world", "abc"])] ↔
         ∃ ls, (m.path, ls) ∈ [("a.txt", ["hello world", "abc"])] ∧
           ∃ i l, ls.get? i = some l ∧ m.content = l ∧ m.lineNumber = 1 + i ∧
             ∃ t1 t2 : List Char, l.data = t1 ++ "lo w".data ++ t2) ∧
    goContains "abc" "a.c" = false :=
  ⟨rfl, claim_C10 false [] "lo w" [("a.txt", ["hello world", "abc"])] rfl⟩

/-- Modelled from the spec: the envelope returned for oversized content — a
preview of the first 20 lines collectively truncated to 8000 chars, wrapped
in a human-readable envelope naming the char and line totals and the saved
file path, or a could-not-save notice when persistence failed. -/
def specEnvelope (content filePath : String) : String :=
  let lines := goSplit content '\n'
  let previewLines := min 20 lines.length
  let preview0 := joinWith "\n" (lines.take previewLines)
  let preview :=
    if preview0.length > 8000 then
      goTake preview0 8000 ++ "\n... [preview truncated]"
    else preview0
  "<output_truncated>\n" ++
  "Output too large (" ++ toString content.length ++ " chars, " ++
  toString lines.length ++ " lines)." ++
  (if filePath != "" then " Full content saved to: " ++ filePath ++ "\n\n"
   else " Could not save full content.\n\n") ++
  "Preview (first " ++ toString previewLines ++ " lines):\n```\n" ++
  preview ++ "\n```\n\n" ++
  (if filePath != "" then
    "To read more: read(\"" ++ filePath ++ "\", offset=" ++
    toString previewLines ++ ", limit=100)\n"
   else "") ++
  "</output_truncated>"

/-- Claim C5: with the default configuration, Process returns content
unchanged (truncated=false, total_size=len) when len(content) is at most
30000; otherwise it reports truncated=true and the true total size, the
persisted path .work/outputs/prefix_rand8_unix.txt when the save succeeded
(empty when it failed), and as content the spec envelope around the first
20 preview lines truncated to 8000 chars, with the could-not-save notice
when persistence failed — persistence failure not being an error of
Process itself. -/
theorem claim_C5 (saveOk : Bool) (rand8 : String) (unix : Nat)
    (content pfx : String) :
    (content.length ≤ 30000 →
       Process DefaultLargeOutputConfig saveOk rand8 unix content pfx =
         ⟨content, false, "", content.length⟩) ∧
    (30000 < content.length →
       (Process DefaultLargeOutputConfig saveOk rand8 unix content pfx).truncated =
         true ∧
       (Process DefaultLargeOutputConfig saveOk rand8 unix content pfx).totalSize =
         content.length ∧
       (saveOk = true →
          (Process DefaultLargeOutputConfig saveOk rand8 unix content pfx).filePath =
            ".work/outputs/" ++
              (pfx ++ "_" ++ rand8 ++ "_" ++ toString unix ++ ".txt") ∧
          (Process DefaultLargeOutputConfig saveOk rand8 unix content pfx).content =
            specEnvelope content
              (".work/outputs/" ++
                (pfx ++ "_" ++ rand8 ++ "_" ++ toString unix ++ ".txt"))) ∧
       (saveOk = false →
          (Process DefaultLargeOutputConfig saveOk rand8 unix content pfx).filePath =
            "" ∧
          (Process DefaultLargeOutputConfig saveOk rand8 unix content pfx).content =
            specEnvelope content "")) := by
  have hdir : OutputsDir ++ "/" = ".work/outputs/" := rfl
  constructor
  · intro h
    simp [Process, DefaultLargeOutputConfig, h]
  · intro h
    have hn : ¬ (content.length ≤ DefaultLargeOutputConfig.maxOutputSize) := by
      simp only [DefaultLargeOutputConfig]
      omega
    cases saveOk with
    | true =>
      refine ⟨by simp [Process, hn], by simp [Process, hn], fun _ => ⟨?_, ?_⟩,
        fun hf => absurd hf (by simp)⟩
      · simp only [Process, hn, if_false, if_true]
        rw [← hdir, String.append_assoc]
      · simp only [Process, hn, if_false, if_true]
        rw [← hdir, String.append_assoc]
        rfl
    | false =>
      refine ⟨by simp [Process, hn], by simp [Process, hn],
        fun hf => absurd hf (by simp), fun _ => ⟨by simp [Process, hn], ?_⟩⟩
      simp only [Process, hn, if_false]
      rfl

/-- Witness for C5 at a small and an oversized content. -/
theorem claim_C5_witness :
    ("hi".length ≤ 30000 ∧
      Process DefaultLargeOutputConfig true "r8" 5 "hi" "bash" =
        ⟨"hi", false, "", "hi".length⟩) ∧
    (30000 < (String.mk (List.replicate 30001 'a')).length ∧
      (Process DefaultLargeOutputConfig true "r8" 5
        (String.mk (List.replicate 30001 'a')) "bash").truncated = true) := by
  have hbig : 30000 < (String.mk (List.replicate 30001 'a')).length := by
    show 30000 < (List.replicate 30001 'a').length
    rw [List.length_replicate]
    omega
  exact ⟨⟨by decide, (claim_C5 true "r8" 5 "hi" "bash").1 (by decide)⟩,
    ⟨hbig, ((claim_C5 true "r8" 5 (String.mk (List.replicate 30001 'a')) "bash").2
      hbig).1⟩⟩

/-- A filesystem with a symlinked directory inside the workspace root:
/ws/link points to /out, so the (not yet existing) path /ws/link/f really
resolves to /out/f.  Lstat fails on /ws/link/f because /out/f does not
exist, and EvalSymlinks reports not-exist. -/
def fsEscape : FS :=
  ⟨fun _ => false, fun _ => .notExist,
   fun s => if s == "/ws/link/f" then "/out/f" else s⟩

/-- Counterexample to C1 as stated: safePath accepts the non-existent path
link/f under root /ws although its real location (through the pre-existing
symlink /ws/link → /out) is /out/f, which is not prefixed by the
canonicalized root — so not every accepted path canonicalizes to a prefix
of the canonicalized workspace root. -/
theorem claim_C1_counterexample :
    safePath fsEscape "/ws" "link/f" = .ok "/ws/link/f" ∧
    fsEscape.canon "/ws/link/f" = "/out/f" ∧
    fsEscape.canon "/ws" = "/ws" ∧
    goHasPrefix (fsEscape.canon "/ws/link/f") (fsEscape.canon "/ws") = false := by
  refine ⟨rfl, rfl, rfl, rfl⟩

/-- Claim C1 (amended): safePath joins the caller path with the workspace
root and absolutizes it, rejecting with an outside-workspace-root error
whenever the absolutized path is not string-prefixed by the root; if the
target exists it canonicalizes symlinks on the path (and on the root,
falling back to the raw root) and rejects with a symlink-escape error
unless the canonicalized path is string-prefixed by the canonicalized
root; if the target does not exist it returns the absolutized path without
symlink canonicalization.  Consequently every accepted path whose target
exists and resolves canonicalizes to a prefix of the canonicalized
workspace root; for not-yet-existing targets only the textual prefix check
holds. -/
theorem claim_C1_amended (fs : FS) (root p : String) :
    (goHasPrefix (joinAbs root p) root = false →
       safePath fs root p = .error .outsideRoot) ∧
    (goHasPrefix (joinAbs root p) root = true →
       fs.lstatOK (joinAbs root p) = true →
       ∀ r, fs.symEval (joinAbs root p) = .ok r →
         (goHasPrefix r (realRootOf fs root) = true →
            safePath fs root p = .ok r) ∧
         (goHasPrefix r (realRootOf fs root) = false →
            safePath fs root p = .error .symlinkEscape)) ∧
    (goHasPrefix (joinAbs root p) root = true →
       fs.lstatOK (joinAbs root p) = false →
       safePath fs root p = .ok (joinAbs root p)) ∧
    (∀ q, safePath fs root p = .ok q →
       fs.lstatOK (joinAbs root p) = true →
       ∀ r, fs.symEval (joinAbs root p) = .ok r →
         q = r ∧ goHasPrefix q (realRootOf fs root) = true) := by
  refine ⟨?_, ?_, ?_, ?_⟩
  · intro h
    simp [safePath, h]
  · intro h hl r he
    constructor
    · intro hr
      simp [safePath, h, hl, he, hr]
    · intro hr
      simp [safePath, h, hl, he, hr]
  · intro h hl
    simp [safePath, h, hl]
  · intro q hq hl r he
    cases hb : goHasPrefix (joinAbs root p) root with
    | false => simp [safePath, hb] at hq
    | true =>
      simp only [safePath, hb, hl, he, Bool.not_true, Bool.false_eq_true,
        if_false, if_true] at hq
      cases hr : goHasPrefix r (realRootOf fs root) with
      | false => simp [hr] at hq
      | true =>
        simp only [hr, if_true, Except.ok.injEq] at hq
        subst hq
        exact ⟨rfl, hr⟩

/-- Witness for C1 on concrete paths: a dot-dot traversal is rejected
textually, and a non-existent in-root path is returned absolutized. -/
theorem claim_C1_amended_witness :
    (goHasPrefix (joinAbs "/ws" "../../etc/passwd") "/ws" = false ∧
      safePath fsEscape "/ws" "../../etc/passwd" = .error .outsideRoot) ∧
    (goHasPrefix (joinAbs "/ws" "sub/new.txt") "/ws" = true ∧
      fsEscape.lstatOK (joinAbs "/ws" "sub/new.txt") = false ∧
      safePath fsEscape "/ws" "sub/new.txt" = .ok (joinAbs "/ws" "sub/new.txt")) :=
  ⟨⟨by decide, (claim_C1_amended fsEscape "/ws" "../../etc/passwd").1 (by decide)⟩,
   ⟨by decide, by decide,
    (claim_C1_amended fsEscape "/ws" "sub/new.txt").2.2.1 (by decide) (by decide)⟩⟩

/-- A filesystem on which nothing exists and symlink evaluation reports
not-exist; real resolution is the identity. -/
def fsId : FS := ⟨fun _ => false, fun _ => .notExist, fun s => s⟩

/-- Counterexample to C3 as stated: the empty command parses (to a program
with no call expressions) yet Check errors with "empty command", so Check
erring is not equivalent to some call expression denying; and with an
all-allow rule table Check passes the command "ls" while Bash still does
not execute it when the workdir fails to resolve, so "executes iff Check
returned nil" also fails. -/
theorem claim_C3_counterexample :
    Check (fun _ _ => false) [] "" (some []) = some "empty command" ∧
    ¬ (∃ c, c ∈ ([] : List String) ∧
        (evaluateRules (fun _ _ => false) [] c).1 = ActionDeny) ∧
    Check (fun _ _ => false) [⟨"*", "allow"⟩] "ls" (some ["ls"]) = none ∧
    bashProceeds fsId "/ws" (fun _ _ => false) [⟨"*", "allow"⟩] "ls"
      (some ["ls"]) "../x" = false := by
  refine ⟨rfl, ?_, rfl, by decide⟩
  rintro ⟨c, hc, _⟩
  exact absurd hc (List.not_mem_nil c)

/-- Claim C3 (amended): for every command that is nonempty after trimming
and parses, Check errors exactly when some call expression of the parsed
program evaluates to deny, and the error names the matched rule (or that
no rule matched) together with the offending normalized invocation; empty
or whitespace-only commands always error; and the bash operation reaches
execution exactly when Check returns nil and the workdir resolves inside
the workspace. -/
theorem claim_C3_amended (ds : String → String → Bool) (rules : List Rule)
    (cmd : String) (calls : List String)
    (h1 : goTrimSpace cmd ≠ "") (h2 : ∀ c ∈ calls, c ≠ "") :
    (Check ds rules cmd (some calls) = none ↔
       ∀ c ∈ calls, (evaluateRules ds rules c).1 ≠ ActionDeny) ∧
    (∀ msg, Check ds rules cmd (some calls) = some msg →
       ∃ c ∈ calls, (evaluateRules ds rules c).1 = ActionDeny ∧
         msg = denyError (evaluateRules ds rules c).2 c) ∧
    (∀ (fs : FS) (root : String) (parsed : Option (List String)) (wd : String),
       bashProceeds fs root ds rules cmd parsed wd = true ↔
         Check ds rules cmd parsed = none ∧
           ∃ d, resolveWorkdir fs root wd = .ok d) := by
  have hne : (goTrimSpace cmd == "") = false := by simpa using h1
  refine ⟨?_, ?_, ?_⟩
  · simp only [Check, hne, Bool.false_eq_true, if_false]
    rw [firstDeny_none_iff]
    constructor
    · intro h c hc
      exact h c hc (h2 c hc)
    · intro h c hc _
      exact h c hc
  · intro msg hmsg
    simp only [Check, hne, Bool.false_eq_true, if_false] at hmsg
    rcases firstDeny_some ds rules calls msg hmsg with ⟨c, hc, _, hd, hm⟩
    exact ⟨c, hc, hd, hm⟩
  · intro fs root parsed wd
    cases hres : resolveWorkdir fs root wd with
    | ok d => simp [bashProceeds, hres, Option.isNone_iff_eq_none]
    | error e => simp [bashProceeds, hres, Option.isNone_iff_eq_none]

/-- Witness for C3 on a concrete injected command. -/
theorem claim_C3_witness :
    (goTrimSpace "ls; rm x" ≠ "") ∧
    (∀ c ∈ ["ls", "rm x"], c ≠ "") ∧
    (Check (fun _ _ => false) (NewChecker [("*", "deny"), ("ls", "allow")])
        "ls; rm x" (some ["ls", "rm x"]) = none ↔
      ∀ c ∈ ["ls", "rm x"],
        (evaluateRules (fun _ _ => false)
          (NewChecker [("*", "deny"), ("ls", "allow")]) c).1 ≠ ActionDeny) :=
  ⟨by decide, by decide,
   (claim_C3_amended (fun _ _ => false) (NewChecker [("*", "deny"), ("ls", "allow")])
     "ls; rm x" ["ls", "rm x"] (by decide) (by decide)).1⟩

end Runner
